import Mathlib

/-!
A verification development for the cleansweep registry data model
(`cleansweep/models.py`): a shallow embedding of the entity tables and their
query helpers, together with theorems settling the documented properties of
the place hierarchy, the committee-type resolution and the lookup helpers.

Modelling conventions:
* Each SQLAlchemy entity becomes a Lean structure holding its column values;
  relationship attributes become explicit foreign keys (`type_id`,
  `iparent_id`, `parent_ids`, ...) resolved against a `DB` record that holds
  the table contents as lists.  List order stands for the (unspecified)
  order in which the store returns rows, and `.head?` models `.first()`.
* ORM object equality (`p.type == type`, `filter_by(type=...)`) is identity
  under the session's identity map, hence equality of primary keys; it is
  modelled by comparing the corresponding id fields.
* Python's stable `sorted` is modelled by `List.insertionSort`, which
  inserts each earlier element before the first later element that is not
  smaller, exactly the stable behaviour of `sorted`.  Python tuple/string
  comparison keys become values of the lexicographic order
  `Int ×ₗ List Char` (code-point comparison, as in Python).
* Session staging and commit are outside the claims being checked, except
  for `PlaceType.new`, where the attribute lookup on the `db` handle is
  made explicit so that the failing `db.sesson` access is visible.
-/

namespace Cleansweep

/-- `class PlaceType(db.Model)`: id, name, unique short_name and the
numeric hierarchy level (10 = country, 20 = state, ...). -/
structure PlaceType where
  id : Nat
  name : String
  short_name : String
  level : Int
deriving DecidableEq

/-- `class Place(db.Model)`: key, name, a `PlaceType` foreign key, the
immediate parent `iparent` and the materialized ancestor list `parents`
(the `place_parents` join table), kept here as the list of ancestor ids in
the order `add_place` writes them. -/
structure Place where
  id : Nat
  key : String
  name : String
  type_id : Nat
  iparent_id : Option Nat
  parent_ids : List Nat
deriving DecidableEq

/-- `class Member(db.Model)`: a person tied to one place, with unique
email and phone. -/
structure Member where
  id : Nat
  place_id : Option Nat
  name : String
  email : String
  phone : String
deriving DecidableEq

/-- `class CommitteeType(db.Model)`: a committee template declared at
`place` for places of type `place_type`, unique on `(place_id, slug)`. -/
structure CommitteeType where
  id : Nat
  place_id : Nat
  place_type_id : Nat
  name : String
  slug : String
  description : String
deriving DecidableEq

/-- `class Committee(db.Model)`: a concrete committee at a place following
a `CommitteeType`.  `id = none` marks a transient instance that has not
been persisted (no primary key assigned yet). -/
structure Committee where
  id : Option Nat
  place_id : Nat
  type_id : Nat
deriving DecidableEq

/-- The relational store: one list per table. -/
structure DB where
  place_types : List PlaceType
  places : List Place
  committee_types : List CommitteeType
  committees : List Committee
  members : List Member

/-- Row lookup by primary key on the `place_type` table. -/
def getPlaceTypeById (db : DB) (i : Nat) : Option PlaceType :=
  db.place_types.find? (fun t => t.id == i)

/-- Row lookup by primary key on the `place` table. -/
def getPlaceById (db : DB) (i : Nat) : Option Place :=
  db.places.find? (fun q => q.id == i)

/-- `PlaceType.get(short_name)`:
`PlaceType.query.filter_by(short_name=short_name).first()`. -/
def PlaceType.get (db : DB) (short_name : String) : Option PlaceType :=
  (db.place_types.filter (fun t => t.short_name == short_name)).head?

/-- `Place.find(key)`: `Place.query.filter_by(key=key).first()`. -/
def Place.find (db : DB) (key : String) : Option Place :=
  (db.places.filter (fun q => q.key == key)).head?

/-- `Member.find(email)`: `Member.query.filter_by(email=email).first()`. -/
def Member.find (db : DB) (email : String) : Option Member :=
  (db.members.filter (fun m => m.email == email)).head?

/-- The `parents` relationship of a place: the ancestor rows referenced by
the materialized join table, in stored order (only rows that exist in the
`place` table are returned, as for any relational join). -/
def Place.parents (db : DB) (p : Place) : List Place :=
  p.parent_ids.filterMap (getPlaceById db)

/-- `p.type.level` for the sort keys below; dangling type ids (impossible
for rows respecting the non-null foreign key) default to 0. -/
def levelOf (db : DB) (q : Place) : Int :=
  ((getPlaceTypeById db q.type_id).map PlaceType.level).getD 0

/-- `get_parent(type)`: `[p for p in self.parents if p.type == type][0]`,
returning `None` on `IndexError`. -/
def Place.get_parent (db : DB) (p : Place) (type : PlaceType) : Option Place :=
  ((Place.parents db p).filter (fun q => q.type_id == type.id)).head?

/-- Ordering of the `places` backref (`order_by='Place.key'`): ascending by
key, compared code point by code point. -/
def placeKeyLE (a b : Place) : Prop := a.key.data ≤ b.key.data

instance : DecidableRel placeKeyLE :=
  fun a b => inferInstanceAs (Decidable (a.key.data ≤ b.key.data))

/-- The `places` backref of the `parents` relationship: every place whose
materialized ancestor list contains this place, ordered by key. -/
def Place.places (db : DB) (p : Place) : List Place :=
  List.insertionSort placeKeyLE
    (db.places.filter (fun q => q.parent_ids.contains p.id))

/-- `get_places(type)` / `_get_places_query`: the `places` backref, joined
with `PlaceType` and filtered by the given type when one is passed
(`if type:` skips the filter for `None`). -/
def Place.get_places (db : DB) (p : Place) (type : Option PlaceType) : List Place :=
  match type with
  | some t => (Place.places db p).filter (fun q => q.type_id == t.id)
  | none => Place.places db p

/-- `add_place(place)`: sets `place.iparent = self` and
`place.parents = self.parents + [self]` (the session add is not modelled). -/
def Place.add_place (self place : Place) : Place :=
  { place with iparent_id := some self.id, parent_ids := self.parent_ids ++ [self.id] }

/-- Sort relation used by `get_siblings`: `key=lambda p: p.type.level`. -/
def levelLE (db : DB) (a b : Place) : Prop := levelOf db a ≤ levelOf db b

instance (db : DB) : DecidableRel (levelLE db) :=
  fun a b => inferInstanceAs (Decidable (levelOf db a ≤ levelOf db b))

instance (db : DB) : IsTotal Place (levelLE db) :=
  ⟨fun a b => Int.le_total (levelOf db a) (levelOf db b)⟩

instance (db : DB) : IsTrans Place (levelLE db) :=
  ⟨fun _ _ _ h1 h2 => Int.le_trans h1 h2⟩

/-- `get_siblings()`: sort the parents by type level; when some parent
exists take the last one (`parents[-1]`, the highest level) and return its
descendant places of this place's type; otherwise return all places of
this type. -/
def Place.get_siblings (db : DB) (p : Place) : List Place :=
  match (List.insertionSort (levelLE db) (Place.parents db p)).getLast? with
  | some np => Place.get_places db np (getPlaceTypeById db p.type_id)
  | none => db.places.filter (fun q => q.type_id == p.type_id)

/-- The `child_places` backref of `iparent`: all immediate children. -/
def Place.child_places (db : DB) (p : Place) : List Place :=
  db.places.filter (fun q => q.iparent_id == some p.id)

/-- Sort key of `get_child_places_by_type`: the Python tuple
`(p.type.level, p.key)` under lexicographic comparison. -/
def childKey (db : DB) (q : Place) : Lex (Int × List Char) :=
  toLex (levelOf db q, q.key.data)

/-- Sort relation of `get_child_places_by_type`. -/
def childLE (db : DB) (a b : Place) : Prop := childKey db a ≤ childKey db b

instance (db : DB) : DecidableRel (childLE db) :=
  fun a b => inferInstanceAs (Decidable (childKey db a ≤ childKey db b))

instance (db : DB) : IsTotal Place (childLE db) :=
  ⟨fun a b => le_total (childKey db a) (childKey db b)⟩

instance (db : DB) : IsTrans Place (childLE db) :=
  ⟨fun _ _ _ h1 h2 => le_trans h1 h2⟩

/-- `itertools.groupby(places, lambda p: p.type)`: maximal consecutive
runs sharing a type, labelled with that type's id. -/
def groupRuns : List Place → List (Nat × List Place)
  | [] => []
  | q :: rest =>
    match groupRuns rest with
    | [] => [(q.type_id, [q])]
    | (t, g) :: gs =>
      if q.type_id = t then (t, q :: g) :: gs
      else (q.type_id, [q]) :: (t, g) :: gs

/-- `get_child_places_by_type()`: the immediate children sorted by
`(type.level, key)` and grouped by type with `itertools.groupby`. -/
def Place.get_child_places_by_type (db : DB) (p : Place) : List (Nat × List Place) :=
  groupRuns (List.insertionSort (childLE db) (Place.child_places db p))

/-- `CommitteeType.query_by_place(place, recursive)`: with
`recursive=True`, committee types whose `place_id` is the place itself or
any of its `parents`, restricted to `place_type_id == place.type_id`;
otherwise the types declared exactly at the place. -/
def CommitteeType.query_by_place (db : DB) (place : Place) (recursive : Bool) :
    List CommitteeType :=
  if recursive then
    let parent_ids := (place :: Place.parents db place).map Place.id
    (db.committee_types.filter (fun ct => parent_ids.contains ct.place_id)).filter
      (fun ct => ct.place_type_id == place.type_id)
  else
    db.committee_types.filter (fun ct => ct.place_id == place.id)

/-- `CommitteeType.find(place, slug, recursive)`: the `query_by_place`
query additionally filtered by slug, then `.first()`. -/
def CommitteeType.find (db : DB) (place : Place) (slug : String) (recursive : Bool) :
    Option CommitteeType :=
  ((CommitteeType.query_by_place db place recursive).filter
    (fun ct => ct.slug == slug)).head?

/-- `get_committee(slug)`: resolve the committee type recursively; when
one is found return the persisted committee row for this exact place if
any, else a fresh transient `Committee(self, committee_type)`; when no
type resolves, fall through and return `None`. -/
def Place.get_committee (db : DB) (p : Place) (slug : String) : Option Committee :=
  match CommitteeType.find db p slug true with
  | some committee_type =>
    match (db.committees.filter
        (fun c => c.type_id == committee_type.id && c.place_id == p.id)).head? with
    | some c => some c
    | none => some { id := none, place_id := p.id, type_id := committee_type.id }
  | none => none

/-- The attributes the flask-sqlalchemy `db` handle actually exposes among
those `models.py` dereferences; note `session`, not `sesson`. -/
def dbHandleAttrs : List String :=
  ["session", "Model", "Column", "Integer", "Text", "Boolean",
   "ForeignKey", "Table", "relationship", "backref", "UniqueConstraint"]

/-- Python attribute lookup: `AttributeError` when the attribute is not
present on the object. -/
def pyGetAttr (attrs : List String) (a : String) : Except String Unit :=
  if attrs.contains a then Except.ok () else Except.error ("AttributeError: " ++ a)

/-- The pending-object set of `db.session` (only the part `PlaceType.new`
would touch is modelled). -/
structure Session where
  staged_place_types : List PlaceType
deriving DecidableEq

/-- `PlaceType.new(name, short_name, level)`: constructs the instance,
then evaluates `db.sesson.add(t)`, whose attribute lookup fails before
anything can be staged.  The constructed row carries no primary key yet;
the placeholder 0 is never observable because the call fails. -/
def PlaceType.new (sess : Session) (name short_name : String) (level : Int) :
    Except String Session :=
  let t : PlaceType := { id := 0, name := name, short_name := short_name, level := level }
  match pyGetAttr dbHandleAttrs "sesson" with
  | Except.ok _ => Except.ok { sess with staged_place_types := t :: sess.staged_place_types }
  | Except.error e => Except.error e

/-- Repeated `add_place` along a descending chain: `buildChain p cs` hangs
`cs` under `p` one place below the other and returns the deepest place. -/
def Place.buildChain (p : Place) : List Place → Place
  | [] => p
  | c :: cs => Place.buildChain (Place.add_place p c) cs

/-! Concrete fixtures used by witnesses and counterexamples, following the
example hierarchy of the documentation: country → state → ward. -/

def ptCountry : PlaceType :=
  { id := 1, name := "Country", short_name := "country", level := 10 }

def ptState : PlaceType :=
  { id := 2, name := "State", short_name := "state", level := 20 }

def ptWard : PlaceType :=
  { id := 3, name := "Ward", short_name := "ward", level := 30 }

def pIndia : Place :=
  { id := 1, key := "india", name := "India", type_id := 1,
    iparent_id := none, parent_ids := [] }

def pMH : Place :=
  { id := 2, key := "mh", name := "Maharashtra", type_id := 2,
    iparent_id := some 1, parent_ids := [1] }

def pKA : Place :=
  { id := 3, key := "ka", name := "Karnataka", type_id := 2,
    iparent_id := some 1, parent_ids := [1] }

def pW1 : Place :=
  { id := 4, key := "w1", name := "Ward 1", type_id := 3,
    iparent_id := some 2, parent_ids := [1, 2] }

/-- A freshly constructed `Place('mh', 'Maharashtra', state)` before any
`add_place`: no parent data yet. -/
def freshMH : Place :=
  { id := 2, key := "mh", name := "Maharashtra", type_id := 2,
    iparent_id := none, parent_ids := [] }

/-- A freshly constructed `Place('w1', 'Ward 1', ward)` before any
`add_place`. -/
def freshW1 : Place :=
  { id := 4, key := "w1", name := "Ward 1", type_id := 3,
    iparent_id := none, parent_ids := [] }

def ctExec : CommitteeType :=
  { id := 1, place_id := 1, place_type_id := 2,
    name := "Executive Committee", slug := "exec", description := "" }

def cExecMH : Committee := { id := some 1, place_id := 2, type_id := 1 }

def mAsha : Member :=
  { id := 1, place_id := some 1, name := "Asha", email := "asha@example.org",
    phone := "100" }

def sampleDB : DB :=
  { place_types := [ptCountry, ptState, ptWard],
    places := [pIndia, pMH, pKA, pW1],
    committee_types := [ctExec],
    committees := [cExecMH],
    members := [mAsha] }

/-! Theorems.  A few shared lemmas about `.first()` on filtered queries
come first. -/

/-- `.first()` on a filtered query is the first matching row. -/
theorem head?_filter_eq_find? {α : Type} (p : α → Bool) (l : List α) :
    (l.filter p).head? = l.find? p := by
  induction l with
  | nil => rfl
  | cons a l ih =>
    by_cases h : p a
    · simp [List.filter_cons, List.find?_cons, h]
    · simp [List.filter_cons, List.find?_cons, h, ih]

/-- A row returned by `.first()` on a filtered query belongs to the table
and satisfies the filter. -/
theorem head?_filter_some {α : Type} {p : α → Bool} {l : List α} {a : α}
    (h : (l.filter p).head? = some a) : a ∈ l ∧ p a = true := by
  rw [head?_filter_eq_find?] at h
  exact ⟨List.mem_of_find?_eq_some h, List.find?_some h⟩

/-- `.first()` on a filtered query is `None` exactly when no row matches. -/
theorem head?_filter_none_iff {α : Type} {p : α → Bool} {l : List α} :
    (l.filter p).head? = none ↔ ∀ a ∈ l, ¬p a = true := by
  rw [List.head?_eq_none_iff, List.filter_eq_nil_iff]

/-- C1: after `p.add_place(c)` the child's immediate parent is `p` and its
ancestor list is `p.parents + [p]`; for a top-level `p` it is `[p]`. -/
theorem add_place_sets_iparent_and_parent_chain (p c : Place) :
    (Place.add_place p c).iparent_id = some p.id
    ∧ (Place.add_place p c).parent_ids = p.parent_ids ++ [p.id]
    ∧ (p.parent_ids = [] → (Place.add_place p c).parent_ids = [p.id]) := by
  refine ⟨rfl, rfl, ?_⟩
  intro h
  simp [Place.add_place, h]

/-- C1 witness: adding Maharashtra under the top-level India gives the
ancestor list `[india]`. -/
theorem add_place_sets_iparent_and_parent_chain_witness :
    (Place.add_place pIndia pMH).parent_ids = [pIndia.id] :=
  (add_place_sets_iparent_and_parent_chain pIndia pMH).2.2 rfl

/-- C9: the lookup operations resolve a missing record to `None` (they are
total functions into an option type; nothing is raised). -/
theorem lookups_return_none_on_no_match (db : DB) (short_name key email : String) :
    ((∀ t ∈ db.place_types, t.short_name ≠ short_name) →
      PlaceType.get db short_name = none)
    ∧ ((∀ q ∈ db.places, q.key ≠ key) → Place.find db key = none)
    ∧ ((∀ m ∈ db.members, m.email ≠ email) → Member.find db email = none) := by
  refine ⟨fun h => ?_, fun h => ?_, fun h => ?_⟩
  · exact head?_filter_none_iff.2 (fun t ht => by simpa using h t ht)
  · exact head?_filter_none_iff.2 (fun q hq => by simpa using h q hq)
  · exact head?_filter_none_iff.2 (fun m hm => by simpa using h m hm)

/-- C9 witness: the three lookups at the sample database, for values no
row carries. -/
theorem lookups_return_none_on_no_match_witness :
    PlaceType.get sampleDB "zzz" = none ∧ Place.find sampleDB "zzz" = none
    ∧ Member.find sampleDB "zzz" = none :=
  ⟨(lookups_return_none_on_no_match sampleDB "zzz" "zzz" "zzz").1 (by decide),
   (lookups_return_none_on_no_match sampleDB "zzz" "zzz" "zzz").2.1 (by decide),
   (lookups_return_none_on_no_match sampleDB "zzz" "zzz" "zzz").2.2 (by decide)⟩

/-- C8: `get_parent` returns the first element of `parents` whose type
matches, and `None` exactly when no ancestor has that type. -/
theorem get_parent_first_match (db : DB) (p : Place) (type : PlaceType) :
    Place.get_parent db p type
      = (Place.parents db p).find? (fun q => q.type_id == type.id)
    ∧ (Place.get_parent db p type = none
        ↔ ∀ q ∈ Place.parents db p, q.type_id ≠ type.id) := by
  constructor
  · exact head?_filter_eq_find? _ _
  · unfold Place.get_parent
    rw [head?_filter_none_iff]
    simp

/-- C8 witness: a ward has no ancestor of type ward, so `get_parent`
returns `None` there. -/
theorem get_parent_first_match_witness :
    Place.get_parent sampleDB pW1 ptWard = none :=
  (get_parent_first_match sampleDB pW1 ptWard).2.mpr (by decide)

/-- C2: a committee type returned by recursive `find` carries the wanted
slug, matches the place's type, and is declared at the place itself or at
one of its ancestors; when no such row exists, `find` returns `None`. -/
theorem committee_type_find_sound (db : DB) (p : Place) (slug : String) :
    (∀ t, CommitteeType.find db p slug true = some t →
      t.slug = slug ∧ t.place_type_id = p.type_id
        ∧ t.place_id ∈ (p :: Place.parents db p).map Place.id)
    ∧ ((∀ ct ∈ db.committee_types,
          ¬(ct.slug = slug ∧ ct.place_type_id = p.type_id
            ∧ ct.place_id ∈ (p :: Place.parents db p).map Place.id)) →
        CommitteeType.find db p slug true = none) := by
  constructor
  · intro t ht
    unfold CommitteeType.find at ht
    obtain ⟨hmem, hslug⟩ := head?_filter_some ht
    simp only [CommitteeType.query_by_place, if_true] at hmem
    obtain ⟨hmem2, htype⟩ := List.mem_filter.1 hmem
    obtain ⟨hrow, hplace⟩ := List.mem_filter.1 hmem2
    refine ⟨by simpa using hslug, by simpa using htype, ?_⟩
    exact List.elem_iff.1 hplace
  · intro h
    unfold CommitteeType.find
    refine head?_filter_none_iff.2 (fun ct hct => ?_)
    simp only [CommitteeType.query_by_place, if_true] at hct
    obtain ⟨hmem2, htype⟩ := List.mem_filter.1 hct
    obtain ⟨hrow, hplace⟩ := List.mem_filter.1 hmem2
    intro hslug
    exact h ct hrow ⟨by simpa using hslug, by simpa using htype, List.elem_iff.1 hplace⟩

/-- C2 witness: at Maharashtra the slug `exec` resolves to the type
declared at the ancestor India, and an unknown slug resolves to `None`. -/
theorem committee_type_find_sound_witness :
    (ctExec.slug = "exec" ∧ ctExec.place_type_id = pMH.type_id
      ∧ ctExec.place_id ∈ (pMH :: Place.parents sampleDB pMH).map Place.id)
    ∧ CommitteeType.find sampleDB pMH "general" true = none :=
  ⟨(committee_type_find_sound sampleDB pMH "exec").1 ctExec (by decide),
   (committee_type_find_sound sampleDB pMH "general").2 (by decide)⟩

/-- C3: `get_committee` returns `None` exactly when no committee type
resolves recursively; when one resolves it returns a committee at this
exact place with the resolved type — the persisted row when one exists,
else a fresh transient instance — and hence never `None`. -/
theorem get_committee_spec (db : DB) (p : Place) (slug : String) :
    (Place.get_committee db p slug = none ↔ CommitteeType.find db p slug true = none)
    ∧ (∀ ct, CommitteeType.find db p slug true = some ct →
        ∃ c, Place.get_committee db p slug = some c
          ∧ c.place_id = p.id ∧ c.type_id = ct.id
          ∧ (c ∈ db.committees ∨ c = { id := none, place_id := p.id, type_id := ct.id })
          ∧ (∀ c2 ∈ db.committees, c2.type_id = ct.id → c2.place_id = p.id →
              c ∈ db.committees)) := by
  cases hf : CommitteeType.find db p slug true with
  | none =>
    constructor
    · simp [Place.get_committee, hf]
    · intro ct hct
      exact absurd hct (by simp)
  | some ct' =>
    constructor
    · cases hc : (db.committees.filter
          (fun c => c.type_id == ct'.id && c.place_id == p.id)).head? with
      | none => simp [Place.get_committee, hf, hc]
      | some c => simp [Place.get_committee, hf, hc]
    · intro ct hct
      injection hct with hct
      subst hct
      cases hc : (db.committees.filter
          (fun c => c.type_id == ct'.id && c.place_id == p.id)).head? with
      | some c =>
        obtain ⟨hmem, hpred⟩ := head?_filter_some hc
        rw [Bool.and_eq_true] at hpred
        obtain ⟨htype, hplace⟩ := hpred
        refine ⟨c, ?_, by simpa using hplace, by simpa using htype,
          Or.inl hmem, fun _ _ _ _ => hmem⟩
        simp [Place.get_committee, hf, hc]
      | none =>
        refine ⟨{ id := none, place_id := p.id, type_id := ct'.id }, ?_, rfl, rfl,
          Or.inr rfl, ?_⟩
        · simp [Place.get_committee, hf, hc]
        · intro c2 hc2 htype hplace
          have hnil := head?_filter_none_iff.1 hc
          exact absurd (by simp [htype, hplace] : (c2.type_id == ct'.id
            && c2.place_id == p.id) = true) (hnil c2 hc2)

/-- C3 witness: at Maharashtra the committee of slug `exec` resolves to
the persisted row of the sample database. -/
theorem get_committee_spec_witness :
    ∃ c, Place.get_committee sampleDB pMH "exec" = some c
      ∧ c.place_id = pMH.id ∧ c.type_id = ctExec.id
      ∧ (c ∈ sampleDB.committees
          ∨ c = { id := none, place_id := pMH.id, type_id := ctExec.id })
      ∧ (∀ c2 ∈ sampleDB.committees, c2.type_id = ctExec.id → c2.place_id = pMH.id →
          c ∈ sampleDB.committees) :=
  (get_committee_spec sampleDB pMH "exec").2 ctExec (by decide)

/-- C4: two `get_committee` calls with no intervening state change agree
on the type and place of the returned committee. -/
theorem get_committee_idempotent (db : DB) (p : Place) (slug : String)
    (c1 c2 : Committee) (h1 : Place.get_committee db p slug = some c1)
    (h2 : Place.get_committee db p slug = some c2) :
    c1.type_id = c2.type_id ∧ c1.place_id = c2.place_id := by
  have h := h1.symm.trans h2
  injection h with h
  subst h
  exact ⟨rfl, rfl⟩

/-- C4 witness: two calls at Maharashtra both return the persisted
committee row. -/
theorem get_committee_idempotent_witness :
    cExecMH.type_id = cExecMH.type_id ∧ cExecMH.place_id = cExecMH.place_id :=
  get_committee_idempotent sampleDB pMH "exec" cExecMH cExecMH (by decide) (by decide)

/-- Building a chain of places with repeated `add_place` accumulates the
ancestor ids of the deepest place root-first: everything above the chain,
then the chain itself without its last element. -/
theorem buildChain_parent_ids (cs : List Place) :
    ∀ p : Place, (Place.buildChain p cs).parent_ids
      = p.parent_ids ++ (p :: cs).dropLast.map Place.id := by
  induction cs with
  | nil => intro p; simp [Place.buildChain]
  | cons c cs ih =>
    intro p
    show (Place.buildChain (Place.add_place p c) cs).parent_ids = _
    rw [ih]
    cases cs with
    | nil => simp [Place.add_place]
    | cons d ds =>
      have h1 : (Place.add_place p c :: d :: ds).dropLast
          = Place.add_place p c :: (d :: ds).dropLast := rfl
      have h2 : (p :: c :: d :: ds).dropLast = p :: (c :: d :: ds).dropLast := rfl
      have h3 : (c :: d :: ds).dropLast = c :: (d :: ds).dropLast := rfl
      rw [h1, h2, h3]
      simp [Place.add_place]

/-- At the end of a nonempty `add_place` chain, the immediate parent is
the last entry of the materialized ancestor list. -/
theorem buildChain_iparent (cs : List Place) :
    ∀ p c : Place, (Place.buildChain p (c :: cs)).iparent_id
      = (Place.buildChain p (c :: cs)).parent_ids.getLast? := by
  induction cs with
  | nil =>
    intro p c
    show (Place.add_place p c).iparent_id = (Place.add_place p c).parent_ids.getLast?
    simp [Place.add_place, List.getLast?_concat]
  | cons d ds ih =>
    intro p c
    show (Place.buildChain (Place.add_place p c) (d :: ds)).iparent_id = _
    exact ih (Place.add_place p c) d

/-- C5 counterexample: build india → maharashtra → ward with `add_place`.
The ward's `parents` starts with the root india (id 1), not with the
immediate parent maharashtra (id 2), so the list is NOT ordered closest
ancestor first. -/
theorem parents_not_closest_first :
    (Place.add_place (Place.add_place pIndia freshMH) freshW1).parent_ids.head?
        = some pIndia.id
    ∧ (Place.add_place (Place.add_place pIndia freshMH) freshW1).iparent_id
        = some freshMH.id
    ∧ (some pIndia.id = some freshMH.id) = False :=
  ⟨rfl, rfl, eq_false (by decide)⟩

/-- C5 (amended): for every place built by repeated `add_place` below a
top-level root, `parents` is the full ancestor chain ordered ROOT FIRST:
the root is the first entry and the immediate parent is the LAST entry
(for a nonempty chain it equals `iparent`). -/
theorem parents_chain_root_first (root : Place) (cs : List Place)
    (hroot : root.parent_ids = []) :
    (Place.buildChain root cs).parent_ids = (root :: cs).dropLast.map Place.id
    ∧ (cs = [] ∨ (Place.buildChain root cs).iparent_id
        = (Place.buildChain root cs).parent_ids.getLast?) := by
  constructor
  · rw [buildChain_parent_ids, hroot]
    rfl
  · cases cs with
    | nil => exact Or.inl rfl
    | cons c cs => exact Or.inr (buildChain_iparent cs root c)

/-- C5 witness: the amended ordering at the concrete india → maharashtra →
ward chain. -/
theorem parents_chain_root_first_witness :
    (Place.buildChain pIndia [freshMH, freshW1]).parent_ids
        = (pIndia :: [freshMH, freshW1]).dropLast.map Place.id
    ∧ ([freshMH, freshW1] = ([] : List Place)
        ∨ (Place.buildChain pIndia [freshMH, freshW1]).iparent_id
          = (Place.buildChain pIndia [freshMH, freshW1]).parent_ids.getLast?) :=
  parents_chain_root_first pIndia [freshMH, freshW1] rfl

/-- Concatenating the groups produced by `groupRuns` restores the input
list: every element lands in exactly one group. -/
theorem groupRuns_flatten (l : List Place) :
    ((groupRuns l).map Prod.snd).flatten = l := by
  induction l with
  | nil => rfl
  | cons q rest ih =>
    rw [groupRuns]
    cases h : groupRuns rest with
    | nil =>
      rw [h] at ih
      simp only [List.map_nil, List.flatten_nil] at ih
      have hrest : rest = [] := ih.symm
      subst hrest
      rfl
    | cons tg gs =>
      obtain ⟨t, g⟩ := tg
      rw [h] at ih
      simp only [List.map_cons, List.flatten_cons] at ih
      show (List.map Prod.snd
          (if q.type_id = t then (t, q :: g) :: gs
           else (q.type_id, [q]) :: (t, g) :: gs)).flatten = q :: rest
      by_cases hq : q.type_id = t
      · rw [if_pos hq]
        simp only [List.map_cons, List.flatten_cons, List.cons_append]
        rw [ih]
      · rw [if_neg hq]
        simp only [List.map_cons, List.flatten_cons, List.singleton_append]
        rw [ih]

/-- Every group produced by `groupRuns` is labelled with the common
type id of its members. -/
theorem groupRuns_type_id (l : List Place) :
    ∀ tg ∈ groupRuns l, ∀ q ∈ tg.2, q.type_id = tg.1 := by
  induction l with
  | nil =>
    intro tg htg
    exact absurd htg (List.not_mem_nil tg)
  | cons q rest ih =>
    rw [groupRuns]
    cases h : groupRuns rest with
    | nil =>
      intro tg htg q' hq'
      have htg' : tg = (q.type_id, [q]) := by simpa using htg
      subst htg'
      have hq'' : q' = q := by simpa using hq'
      subst hq''
      rfl
    | cons tg0 gs =>
      obtain ⟨t, g⟩ := tg0
      rw [h] at ih
      show ∀ tg ∈ (if q.type_id = t then (t, q :: g) :: gs
          else (q.type_id, [q]) :: (t, g) :: gs), ∀ q' ∈ tg.2, q'.type_id = tg.1
      by_cases hq : q.type_id = t
      · rw [if_pos hq]
        intro tg htg q' hq'
        rcases List.mem_cons.1 htg with h1 | h1
        · subst h1
          rcases List.mem_cons.1 hq' with h2 | h2
          · subst h2; exact hq
          · exact ih (t, g) (List.mem_cons_self _ _) q' h2
        · exact ih tg (List.mem_cons_of_mem _ h1) q' hq'
      · rw [if_neg hq]
        intro tg htg q' hq'
        rcases List.mem_cons.1 htg with h1 | h1
        · subst h1
          have hq'' : q' = q := by simpa using hq'
          subst hq''
          rfl
        · exact ih tg h1 q' hq'

/-- C6: the groups of `get_child_places_by_type` partition the immediate
children (their concatenation is a permutation of `child_places`), every
group consists of children sharing the type it is labelled with, and the
grouped traversal is in ascending `(type.level, key)` order. -/
theorem get_child_places_by_type_spec (db : DB) (p : Place) :
    (((Place.get_child_places_by_type db p).map Prod.snd).flatten).Perm
        (Place.child_places db p)
    ∧ (∀ tg ∈ Place.get_child_places_by_type db p, ∀ q ∈ tg.2, q.type_id = tg.1)
    ∧ (((Place.get_child_places_by_type db p).map Prod.snd).flatten).Sorted
        (childLE db) := by
  refine ⟨?_, groupRuns_type_id _, ?_⟩
  · rw [Place.get_child_places_by_type, groupRuns_flatten]
    exact List.perm_insertionSort _ _
  · rw [Place.get_child_places_by_type, groupRuns_flatten]
    exact List.sorted_insertionSort _ _

/-- In a list sorted by a reflexive relation, every element is related to
the last element (`parents[-1]` dominates the sorted list). -/
theorem sorted_rel_getLast {α : Type} {r : α → α → Prop} (hrefl : ∀ a, r a a)
    (l : List α) : ∀ (hne : l ≠ []), l.Sorted r → ∀ a ∈ l, r a (l.getLast hne) := by
  induction l with
  | nil =>
    intro hne
    exact absurd rfl hne
  | cons x l ih =>
    intro hne hs a ha
    cases l with
    | nil =>
      have hax : a = x := by simpa using ha
      subst hax
      exact hrefl a
    | cons y t =>
      rw [List.getLast_cons (List.cons_ne_nil y t)]
      rcases List.mem_cons.1 ha with rfl | ha'
      · exact List.rel_of_sorted_cons hs _ (List.getLast_mem _)
      · exact ih (List.cons_ne_nil y t) hs.of_cons a ha'

/-- C7: with at least one (resolvable) ancestor, `get_siblings` returns
exactly the places of this place's type among the descendants — via the
materialized ancestor join — of an ancestor of maximal type level; a
top-level place gets all places of its type.  The second part assumes the
place's own type row exists (its foreign key is non-null). -/
theorem get_siblings_spec (db : DB) (p : Place) :
    (Place.parents db p = [] →
      Place.get_siblings db p = db.places.filter (fun q => q.type_id == p.type_id))
    ∧ (Place.parents db p ≠ [] → (getPlaceTypeById db p.type_id).isSome = true →
        ∃ np, np ∈ Place.parents db p
          ∧ (∀ q ∈ Place.parents db p, levelOf db q ≤ levelOf db np)
          ∧ ∀ q, (q ∈ Place.get_siblings db p
              ↔ q ∈ db.places ∧ np.id ∈ q.parent_ids ∧ q.type_id = p.type_id)) := by
  constructor
  · intro h
    rw [Place.get_siblings, h]
    rfl
  · intro hne hsome
    have hperm := List.perm_insertionSort (levelLE db) (Place.parents db p)
    have hsne : List.insertionSort (levelLE db) (Place.parents db p) ≠ [] := by
      intro h0
      rw [h0] at hperm
      exact hne hperm.symm.eq_nil
    have hlast := List.getLast?_eq_getLast
      (List.insertionSort (levelLE db) (Place.parents db p)) hsne
    obtain ⟨t, ht⟩ := Option.isSome_iff_exists.1 hsome
    have htid : t.id = p.type_id := by simpa using List.find?_some ht
    refine ⟨(List.insertionSort (levelLE db) (Place.parents db p)).getLast hsne,
      (List.mem_insertionSort _).1 (List.getLast_mem hsne), fun q hq => ?_, fun q => ?_⟩
    · exact sorted_rel_getLast (fun a => le_refl (levelOf db a)) _ hsne
        (List.sorted_insertionSort _ _) q ((List.mem_insertionSort _).2 hq)
    · have hsib : Place.get_siblings db p = Place.get_places db
          ((List.insertionSort (levelLE db) (Place.parents db p)).getLast hsne)
          (getPlaceTypeById db p.type_id) := by
        rw [Place.get_siblings, hlast]
      rw [hsib, ht, Place.get_places]
      constructor
      · intro hq
        obtain ⟨hq1, hq2⟩ := List.mem_filter.1 hq
        have hq3 := (List.mem_insertionSort _).1 hq1
        obtain ⟨hq4, hq5⟩ := List.mem_filter.1 hq3
        refine ⟨hq4, List.elem_iff.1 hq5, by rw [← htid]; simpa using hq2⟩
      · intro hq
        obtain ⟨hq1, hq2, hq3⟩ := hq
        refine List.mem_filter.2 ⟨(List.mem_insertionSort _).2
          (List.mem_filter.2 ⟨hq1, List.elem_iff.2 hq2⟩), ?_⟩
        rw [htid]
        simpa using hq3

/-- C7 witness: the ward of the sample database has ancestors india and
maharashtra; maharashtra has the maximal level and the sibling set is
characterized through it. -/
theorem get_siblings_spec_witness :
    ∃ np, np ∈ Place.parents sampleDB pW1
      ∧ (∀ q ∈ Place.parents sampleDB pW1, levelOf sampleDB q ≤ levelOf sampleDB np)
      ∧ ∀ q, (q ∈ Place.get_siblings sampleDB pW1
          ↔ q ∈ sampleDB.places ∧ np.id ∈ q.parent_ids ∧ q.type_id = pW1.type_id) :=
  (get_siblings_spec sampleDB pW1).2 (by decide) (by decide)

/-- C10: `PlaceType.new` always fails with an `AttributeError` on the
misspelt `db.sesson` and produces no new session state. -/
theorem placetype_new_always_fails (sess : Session) (name short_name : String)
    (level : Int) :
    PlaceType.new sess name short_name level = Except.error "AttributeError: sesson"
    ∧ (PlaceType.new sess name short_name level).isOk = false := by
  constructor <;> rfl

end Cleansweep
